import Mathlib

/-!
Verification of the DCUtR (Direct Connection Upgrade through Relay) client
described in spec.md against its implementation in src/dcutr/src/main.rs.

The file has two parts.

Part 1 embeds the demo driver from src/dcutr/src/main.rs: the `Mode` CLI
enum and its `FromStr` instance, the deterministic key generation
`generate_ed25519`, and the three swarm event loops of `main` (the initial
listen loop, the relay bootstrap loop, and the final loop), modelled as
handlers over an event alphabet covering the `SwarmEvent` variants the
driver distinguishes.  A handler outcome of `panicked` embeds a Rust
`panic!` / failed `assert!` / `unwrap` of `None`.

Part 2 models the Hole-Punch Coordinator of the spec (sections 4.1, 5 and
7).  That component is not present under src/ (the demo drives the
pre-built libp2p dcutr behaviour), so its operations are modelled from the
spec's words, as indicated by the doc comments.
-/

/-- The CLI `Mode` enum of src/dcutr/src/main.rs (lines 69-73). -/
inductive Mode where
  | Dial
  | Listen
  deriving DecidableEq, Fintype

/-- `impl FromStr for Mode` (main.rs lines 75-84): `"dial"` parses to
`Dial`, `"listen"` to `Listen`, anything else is an error with the fixed
message. -/
def Mode.from_str (mode : String) : Except String Mode :=
  match mode with
  | "dial" => .ok .Dial
  | "listen" => .ok .Listen
  | _ => .error "Expected either \x27dial\x27 or \x27listen\x27"

/-- The 32-byte ed25519 key material built by `generate_ed25519`
(main.rs lines 342-347): a 32-byte array of zeros with byte 0 set to the
seed. -/
def ed25519KeyMaterial (secret_key_seed : Nat) : List Nat :=
  (List.replicate 32 0).set 0 secret_key_seed

/-- `generate_ed25519` (main.rs lines 342-347).  The library derivation
`identity::Keypair::ed25519_from_bytes` is an external pure function of
the byte array, abstracted as the parameter `ed25519_from_bytes`. -/
def generate_ed25519 {K : Type} (ed25519_from_bytes : List Nat → K)
    (secret_key_seed : Nat) : K :=
  ed25519_from_bytes (ed25519KeyMaterial secret_key_seed)

/-- One component of a multiaddress (`Protocol` in libp2p terms); the
driver only ever appends `P2pCircuit` and `P2p(peer)` components. -/
inductive Proto where
  | p2pCircuit
  | p2p (peer : Nat)
  | tcp (port : Nat)
  | ip4 (host : Nat)
  deriving DecidableEq

/-- A multiaddress: a sequence of protocol components. -/
abbrev Multiaddr := List Proto

/-- `Multiaddr::with`: append one protocol component. -/
def maWith (m : Multiaddr) (p : Proto) : Multiaddr := m ++ [p]

/-- The alphabet of swarm events the driver's three event loops
distinguish (main.rs lines 227-241, 258-278, 304-337).  Variants the
match arms do not distinguish further are merged (`identifyOther` is any
`identify::Event` other than `Sent`/`Received`; `relayClientOther` is any
relay client event other than `ReservationReqAccepted`;
`gossipsubOther` is any gossipsub event other than `Message`;
`otherEv` is any remaining `SwarmEvent` variant). -/
inductive SwarmEv where
  | newListenAddr
  | dialing
  | connectionEstablished
  | outgoingConnectionError
  | pingEv
  | identifySent
  | identifyReceived
  | identifyOther
  | reservationReqAccepted
  | relayClientOther
  | dcutrEv
  | gossipsubMessage
  | gossipsubOther
  | otherEv
  deriving DecidableEq, Fintype

/-- Outcome of handling one event: either the arm ran normally or the
process panicked. -/
inductive HandlerResult where
  | handled
  | panicked
  deriving DecidableEq

/-- The event handler of the initial "wait to listen on all interfaces"
loop (main.rs lines 227-241): `NewListenAddr` and gossipsub `Message`
are printed, every other event hits `event => panic!`. -/
def initialListenHandler : SwarmEv → HandlerResult
  | .newListenAddr => .handled
  | .gossipsubMessage => .handled
  | _ => .panicked

/-- The event handler of the relay bootstrap loop (main.rs lines
258-278), threading the two flags `learned_observed_addr` and
`told_relay_observed_addr`; `none` embeds the `event => panic!` arm. -/
def bootstrapHandler (learned told : Bool) : SwarmEv → Option (Bool × Bool)
  | .newListenAddr => some (learned, told)
  | .dialing => some (learned, told)
  | .connectionEstablished => some (learned, told)
  | .pingEv => some (learned, told)
  | .identifySent => some (learned, true)
  | .identifyReceived => some (true, told)
  | _ => none

/-- The relay bootstrap loop (main.rs lines 254-284): handle events one
by one, breaking once both flags are set (the check runs after each
event).  Returns `true` when the loop exits normally; `false` embeds a
panic on an unexpected event (or the event stream ending, which would
make `swarm.next().await.unwrap()` panic). -/
def bootstrapLoop (learned told : Bool) : List SwarmEv → Bool
  | [] => false
  | e :: rest =>
    match bootstrapHandler learned told e with
    | none => false
    | some (l, t) => if l && t then true else bootstrapLoop l t rest

/-- The action `main` performs after the bootstrap loop, depending on the
mode (main.rs lines 286-301). -/
inductive MainAction where
  | dialAddr (a : Multiaddr)
  | listenOn (a : Multiaddr)
  deriving DecidableEq

/-- The mode dispatch of main.rs lines 286-301: `Dial` dials the relay
address extended with `P2pCircuit` and `P2p(remote_peer_id.unwrap())`
(`none` embeds the panic of `unwrap` on `None`); `Listen` listens on the
relay address extended with `P2pCircuit` and never reads
`remote_peer_id`. -/
def modeAction (mode : Mode) (relay_address : Multiaddr)
    (remote_peer_id : Option Nat) : Option MainAction :=
  match mode with
  | .Dial =>
    match remote_peer_id with
    | some p => some (.dialAddr (maWith (maWith relay_address .p2pCircuit) (.p2p p)))
    | none => none
  | .Listen => some (.listenOn (maWith relay_address .p2pCircuit))

/-- The tail of `main` after dialing the relay: run the bootstrap loop
over the incoming events, and only if it exits perform the mode-specific
action (main.rs lines 254-301). -/
def afterRelayDial (mode : Mode) (relay_address : Multiaddr)
    (remote_peer_id : Option Nat) (evs : List SwarmEv) : Option MainAction :=
  if bootstrapLoop false false evs then modeAction mode relay_address remote_peer_id
  else none

/-- The event handler of the final event loop (main.rs lines 304-337):
every event is handled (the loop ends in `_ => {}`) except that
`ReservationReqAccepted` runs `assert!(opts.mode == Mode::Listen)`,
which panics in `Dial` mode. -/
def mainLoopHandler (mode : Mode) : SwarmEv → HandlerResult
  | .reservationReqAccepted => if mode = Mode.Listen then .handled else .panicked
  | _ => .handled

/-- The mode dispatch followed by the final event loop: when the mode
action panics (`none`), no final-loop event is ever processed. -/
def mainTail (mode : Mode) (relay_address : Multiaddr)
    (remote_peer_id : Option Nat) (evs : List SwarmEv) :
    Option (MainAction × List HandlerResult) :=
  (modeAction mode relay_address remote_peer_id).map
    (fun a => (a, evs.map (mainLoopHandler mode)))

/-!
Part 2: the Hole-Punch Coordinator, modelled from the spec.

The coordinator itself is not in src/ (the demo delegates hole punching
to the pre-built libp2p `dcutr` behaviour), so the definitions below are
modelled from spec.md sections 3, 4.1, 5 and 7.
-/

/-- Modelled from the spec: `PeerIdentity`, an opaque globally unique
identifier (spec section 3). -/
abbrev Peer := Nat

/-- Modelled from the spec: `Address`, a structured network endpoint
(spec section 3); opaque here. -/
abbrev Addr := Nat

/-- Modelled from the spec: the reasons of the terminal `Failed` outcome
(spec sections 4.1 and 7). -/
inductive FailReason where
  | Timeout
  | AllCandidatesFailed
  | ProtocolViolation
  deriving DecidableEq

/-- Modelled from the spec: the role of a `HolePunchAttempt`
(spec section 3). -/
inductive Role where
  | Initiator
  | Responder
  deriving DecidableEq

/-- Modelled from the spec: the states of the attempt state machine of
spec section 4.1 (steps 1-7): the two waiting states, `Racing`, and the
terminal `Succeeded` / `Failed(reason)`. -/
inductive AState where
  | WaitingForConnectResponse
  | WaitingForSync
  | Racing
  | Succeeded
  | Failed (r : FailReason)
  deriving DecidableEq

/-- A state is terminal when it is `Succeeded` or `Failed` (spec section
4.1, step 7). -/
def AState.isTerminal : AState → Bool
  | .Succeeded => true
  | .Failed _ => true
  | _ => false

/-- Modelled from the spec: a `HolePunchAttempt` (spec section 3): role,
round number, sent/received candidate sets, deadline, plus a unique
generation id used to tell a stale dial task from one of the current
attempt (spec section 5, cancellation). -/
structure HolePunchAttempt where
  id : Nat
  role : Role
  state : AState
  round : Nat
  sentCandidates : List Addr
  remoteCandidates : List Addr
  pendingDials : List Addr
  deadline : Nat
  deriving DecidableEq

/-- Modelled from the spec: the active-attempts registry, a finite map
`PeerIdentity → HolePunchAttempt` (spec section 5), as an association
list. -/
abbrev Registry := List (Peer × HolePunchAttempt)

/-- Lookup in the active-attempts registry. -/
def regLookup : Registry → Peer → Option HolePunchAttempt
  | [], _ => none
  | q :: rest, p => if q.1 = p then some q.2 else regLookup rest p

/-- Remove every entry of a peer from the registry. -/
def regRemove : Registry → Peer → Registry
  | [], _ => []
  | q :: rest, p => if q.1 = p then regRemove rest p else q :: regRemove rest p

/-- No two registry entries share a peer key ("at most one active
HolePunchAttempt per remote peer", spec section 3). -/
def regNodup : Registry → Bool
  | [] => true
  | q :: rest => (regLookup rest q.1).isNone && regNodup rest

/-- Every attempt id in the registry is below `n` (freshness bound). -/
def regIdsBelow : Registry → Nat → Bool
  | [], _ => true
  | q :: rest, n => decide (q.2.id < n) && regIdsBelow rest n

/-- No registry entry carries the attempt id `i`. -/
def regNoId : Registry → Nat → Bool
  | [], _ => true
  | q :: rest, i => decide (q.2.id ≠ i) && regNoId rest i

/-- No two registry entries share an attempt id. -/
def regIdsNodup : Registry → Bool
  | [] => true
  | q :: rest => regNoId rest q.2.id && regIdsNodup rest

/-- Every registered attempt is still active (not terminal): a terminal
attempt is removed from the registry at the very step that resolves
it. -/
def regActive : Registry → Bool
  | [] => true
  | q :: rest => !q.2.state.isTerminal && regActive rest

/-- Modelled from the spec: the coordinator state: the active-attempts
registry, a fresh-id counter, and the set of peers with an active
`RelayedConnection` (spec sections 3 and 5). -/
structure Coordinator where
  attempts : Registry
  nextId : Nat
  relayed : List Peer
  deriving DecidableEq

/-- There is an active relayed connection to `p` (spec section 3,
`RelayedConnection`). -/
def hasRelayedPath (c : Coordinator) (p : Peer) : Bool :=
  c.relayed.contains p

/-- Well-formedness of the coordinator state: at most one attempt per
peer, all attempt ids fresh-bounded by `nextId`, and all attempt ids
pairwise distinct. -/
def Coordinator.WF (c : Coordinator) : Bool :=
  regNodup c.attempts && regIdsBelow c.attempts c.nextId && regIdsNodup c.attempts

/-- Modelled from the spec: the error kinds of spec section 7 that the
coordinator operations return. -/
inductive CoordError where
  | NoRelayedPath
  | AttemptInProgress
  deriving DecidableEq

/-- Modelled from the spec: the DCUtR protocol messages `Connect` (with
candidates) and `Sync` (spec sections 4.1 and 6). -/
inductive Msg where
  | Connect (candidates : List Addr)
  | Sync
  deriving DecidableEq

/-- Modelled from the spec: the outcome notifications the orchestrator
surfaces (spec sections 4.2 and 6). -/
inductive Notification where
  | established (p : Peer) (endpoint : Addr)
  | failed (p : Peer) (r : FailReason)
  deriving DecidableEq

/-- The effect of one coordinator step: the new coordinator state, an
optional protocol message to send over the relayed connection, the dial
tasks launched, and an optional outcome notification. -/
structure StepOut where
  coord : Coordinator
  send : Option Msg
  dials : List Addr
  notify : Option Notification
  deriving DecidableEq

/-- A step that changes nothing, sends nothing, dials nothing and
notifies nobody. -/
def noopOut (c : Coordinator) : StepOut :=
  { coord := c, send := none, dials := [], notify := none }

/-- Replace the attempt of peer `p` (used only when `p` is present). -/
def setAttempt (c : Coordinator) (p : Peer) (a : HolePunchAttempt) : Coordinator :=
  { c with attempts := (p, a) :: regRemove c.attempts p }

/-- Remove the attempt of peer `p` from the registry. -/
def removeAttempt (c : Coordinator) (p : Peer) : Coordinator :=
  { c with attempts := regRemove c.attempts p }

/-- Modelled from the spec: `initiate` (spec section 4.1): fails with
`NoRelayedPath` if no active relayed connection exists to the peer,
with `AttemptInProgress` if a prior attempt to the peer has not
resolved; otherwise creates an Initiator attempt in
`WaitingForConnectResponse` and sends `Connect(localCandidates)`. -/
def initiate (c : Coordinator) (remote : Peer) (localCandidates : List Addr)
    (deadline : Nat) : Except CoordError StepOut :=
  if hasRelayedPath c remote then
    if (regLookup c.attempts remote).isSome then .error .AttemptInProgress
    else
      let a : HolePunchAttempt :=
        { id := c.nextId, role := .Initiator, state := .WaitingForConnectResponse,
          round := 1, sentCandidates := localCandidates, remoteCandidates := [],
          pendingDials := [], deadline := deadline }
      .ok { coord := { c with attempts := (remote, a) :: c.attempts, nextId := c.nextId + 1 },
            send := some (.Connect localCandidates), dials := [], notify := none }
  else .error .NoRelayedPath

/-- Modelled from the spec: `handleIncoming` (spec section 4.1): upon a
peer-initiated `Connect` over an existing relayed circuit (and no
attempt yet registered), create a Responder attempt, record the remote
candidates, reply with our own `Connect(localCandidates)` and move to
`WaitingForSync` (spec section 4.1, step 2). -/
def handleIncoming (c : Coordinator) (remote : Peer)
    (remoteCandidates localCandidates : List Addr) (deadline : Nat) : StepOut :=
  let a : HolePunchAttempt :=
    { id := c.nextId, role := .Responder, state := .WaitingForSync,
      round := 1, sentCandidates := localCandidates,
      remoteCandidates := remoteCandidates, pendingDials := [], deadline := deadline }
  { coord := { c with attempts := (remote, a) :: c.attempts, nextId := c.nextId + 1 },
    send := some (.Connect localCandidates), dials := [], notify := none }

/-- Modelled from the spec: `onMessage` (spec section 4.1, steps 3-4 and
the edge cases of sections 4.1 and 7): advance the attempt state machine
of the registered attempt `a` of peer `remote` on message `m`.
An Initiator in `WaitingForConnectResponse` receiving `Connect` records
the candidates, sends `Sync`, dials every remote candidate and moves to
`Racing`; a `Sync` there is out of order, a `ProtocolViolation` aborting
only this attempt.  A Responder in `WaitingForSync` receiving `Sync`
dials every recorded remote candidate and moves to `Racing`; a duplicate
`Connect` there is an idempotent no-op.  In `Racing`, duplicate messages
are ignored.  Terminal states accept nothing. -/
def onMessage (c : Coordinator) (remote : Peer) (a : HolePunchAttempt)
    (m : Msg) : StepOut :=
  match a.state, m with
  | .WaitingForConnectResponse, .Connect rc =>
      let a2 : HolePunchAttempt :=
        { a with state := .Racing, remoteCandidates := rc, pendingDials := rc,
                 round := a.round + 1 }
      { coord := setAttempt c remote a2, send := some .Sync, dials := rc, notify := none }
  | .WaitingForConnectResponse, .Sync =>
      { coord := removeAttempt c remote, send := none, dials := [],
        notify := some (.failed remote .ProtocolViolation) }
  | .WaitingForSync, .Sync =>
      let a2 : HolePunchAttempt :=
        { a with state := .Racing, pendingDials := a.remoteCandidates,
                 round := a.round + 1 }
      { coord := setAttempt c remote a2, send := none,
        dials := a.remoteCandidates, notify := none }
  | .WaitingForSync, .Connect _ => noopOut c
  | .Racing, .Connect _ => noopOut c
  | .Racing, .Sync => noopOut c
  | .Succeeded, _ => noopOut c
  | .Failed _, _ => noopOut c

/-- Modelled from the spec: dispatch of a received `Connect` (spec
section 4.1): rejected with `NoRelayedPath` when no relayed connection
to the sender exists; routed to the existing attempt's state machine
when one is registered (duplicate handling); otherwise `handleIncoming`
creates the Responder attempt. -/
def onConnectReceived (c : Coordinator) (remote : Peer)
    (remoteCandidates localCandidates : List Addr) (deadline : Nat) :
    Except CoordError StepOut :=
  if hasRelayedPath c remote then
    match regLookup c.attempts remote with
    | some a => .ok (onMessage c remote a (.Connect remoteCandidates))
    | none => .ok (handleIncoming c remote remoteCandidates localCandidates deadline)
  else .error .NoRelayedPath

/-- Modelled from the spec: dispatch of a received `Sync`: routed to the
registered attempt's state machine; a `Sync` for a peer with no
registered attempt is discarded. -/
def onSyncReceived (c : Coordinator) (remote : Peer) : StepOut :=
  match regLookup c.attempts remote with
  | some a => onMessage c remote a .Sync
  | none => noopOut c

/-- Modelled from the spec: the completion event of one parallel dial
task (spec section 5): which peer, the generation id of the attempt that
launched it, the candidate address, and whether the dial succeeded. -/
structure DialResult where
  peer : Peer
  attemptId : Nat
  addr : Addr
  ok : Bool
  deriving DecidableEq

/-- Modelled from the spec: funnel a dial task's completion back into
the attempt state machine (spec sections 4.1 steps 5-6, 5 and 7).  A
completion whose peer has no registered attempt, whose generation id is
not the registered attempt's, or whose attempt is not `Racing`, is
discarded (best-effort cancellation: stale tasks are not errors).  A
successful dial resolves the attempt: it becomes terminal `Succeeded`
and is immediately removed from the registry, remaining dials are
cancelled, and an `established` notification fires.  A failed dial is
absorbed; when it was the last pending dial the attempt resolves
`Failed(AllCandidatesFailed)`. -/
def onDialResultA (c : Coordinator) (r : DialResult) (a : HolePunchAttempt) : StepOut :=
  if a.id = r.attemptId then
    match a.state with
    | .Racing =>
      if r.ok then
        { coord := removeAttempt c r.peer, send := none, dials := [],
          notify := some (.established r.peer r.addr) }
      else
        if (a.pendingDials.erase r.addr).isEmpty then
          { coord := removeAttempt c r.peer, send := none, dials := [],
            notify := some (.failed r.peer .AllCandidatesFailed) }
        else
          noopOut (setAttempt c r.peer { a with pendingDials := a.pendingDials.erase r.addr })
    | _ => noopOut c
  else noopOut c

/-- Dispatch of a dial completion: a completion whose peer has no
registered attempt is discarded. -/
def onDialResult (c : Coordinator) (r : DialResult) : StepOut :=
  match regLookup c.attempts r.peer with
  | none => noopOut c
  | some a => onDialResultA c r a

/-- Modelled from the spec: deadline expiry (spec section 5): when the
clock reaches a registered attempt's absolute deadline, the attempt
transitions to `Failed(Timeout)`, is removed from the registry, and the
cancellation path runs; before the deadline nothing happens. -/
def onTick (c : Coordinator) (p : Peer) (now : Nat) : StepOut :=
  match regLookup c.attempts p with
  | none => noopOut c
  | some a =>
    if a.deadline ≤ now then
      { coord := removeAttempt c p, send := none, dials := [],
        notify := some (.failed p .Timeout) }
    else noopOut c

/-- Modelled from the spec: the commands the single event loop of the
coordinator processes (spec section 5). -/
inductive Cmd where
  | initiateCmd (remote : Peer) (localCandidates : List Addr) (deadline : Nat)
  | connectReceived (remote : Peer) (remoteCandidates localCandidates : List Addr) (deadline : Nat)
  | syncReceived (remote : Peer)
  | dialResult (r : DialResult)
  | tick (p : Peer) (now : Nat)
  | relayUp (p : Peer)
  | relayDown (p : Peer)
  deriving DecidableEq

/-- One step of the coordinator event loop: apply a command to the
state; an operation that fails with an error leaves the state
unchanged.  `relayUp` records a new relayed connection; `relayDown`
drops it and destroys the peer's attempt (spec section 3: an attempt is
destroyed when the relayed connection drops). -/
def step (c : Coordinator) : Cmd → Coordinator
  | .initiateCmd remote lc d =>
    match initiate c remote lc d with
    | .ok o => o.coord
    | .error _ => c
  | .connectReceived remote rc lc d =>
    match onConnectReceived c remote rc lc d with
    | .ok o => o.coord
    | .error _ => c
  | .syncReceived remote => (onSyncReceived c remote).coord
  | .dialResult r => (onDialResult c r).coord
  | .tick p now => (onTick c p now).coord
  | .relayUp p => { c with relayed := p :: c.relayed }
  | .relayDown p =>
    { c with relayed := c.relayed.filter (fun q => q ≠ p),
             attempts := regRemove c.attempts p }

/-- Run the coordinator event loop over a list of commands. -/
def steps (c : Coordinator) (cmds : List Cmd) : Coordinator :=
  cmds.foldl step c

/-!
Theorems.
-/

/-- C9: for every input string `s`, `Mode::from_str` returns
`Ok(Mode::Dial)` iff `s` is exactly `"dial"`, `Ok(Mode::Listen)` iff `s`
is exactly `"listen"` (case-sensitive), and otherwise the fixed error
message. -/
theorem mode_from_str_spec :
    ∀ s : String,
      (Mode.from_str s = .ok .Dial ↔ s = "dial") ∧
      (Mode.from_str s = .ok .Listen ↔ s = "listen") ∧
      (s ≠ "dial" → s ≠ "listen" →
        Mode.from_str s = .error "Expected either \x27dial\x27 or \x27listen\x27") := by
  intro s
  by_cases h1 : s = "dial"
  · subst h1; refine ⟨by simp [Mode.from_str], by simp [Mode.from_str], ?_⟩
    intro h _; exact absurd rfl h
  · by_cases h2 : s = "listen"
    · subst h2
      refine ⟨by simp [Mode.from_str, h1], by simp [Mode.from_str, h1], ?_⟩
      intro _ h; exact absurd rfl h
    · refine ⟨by simp [Mode.from_str, h1, h2], by simp [Mode.from_str, h1, h2], ?_⟩
      intro _ _; simp [Mode.from_str, h1, h2]

/-- Witness for `mode_from_str_spec` at the concrete input `"fly"`. -/
theorem mode_from_str_spec_witness :
    Mode.from_str "fly" = .error "Expected either \x27dial\x27 or \x27listen\x27" :=
  (mode_from_str_spec "fly").2.2 (by decide) (by decide)

/-- C10: `generate_ed25519` is deterministic in its seed: equal seeds
give identical keypairs (and hence identical peer ids, those being a
function of the keypair), because the key material is a 32-byte array
that is all zeros except byte 0 set to the seed. -/
theorem generate_ed25519_deterministic :
    ∀ {K : Type} (ed25519_from_bytes : List Nat → K) (s1 s2 : Nat), s1 = s2 →
      generate_ed25519 ed25519_from_bytes s1 = generate_ed25519 ed25519_from_bytes s2 ∧
      (ed25519KeyMaterial s1).length = 32 ∧
      (ed25519KeyMaterial s1).get? 0 = some s1 ∧
      (∀ i : Nat, 1 ≤ i → i < 32 → (ed25519KeyMaterial s1).get? i = some 0) := by
  intro K ed s1 s2 h
  subst h
  refine ⟨rfl, by simp [ed25519KeyMaterial], rfl, ?_⟩
  intro i h1 h2
  interval_cases i <;> rfl

/-- Witness for `generate_ed25519_deterministic` at seed 5. -/
theorem generate_ed25519_deterministic_witness :
    (ed25519KeyMaterial 5).get? 0 = some 5 :=
  (generate_ed25519_deterministic id 5 5 rfl).2.2.1

/-- C8: in `Mode::Dial` with `remote_peer_id` absent, `main` panics
(`unwrap` of `None`) when constructing the relayed dial address, before
any final-loop (hole-punch) event is processed; in `Mode::Listen` the
`remote_peer_id` field is never read (the tail of `main` is the same
function of the events whatever that field holds). -/
theorem dial_mode_requires_remote_peer_id :
    (∀ (ra : Multiaddr) (evs : List SwarmEv), mainTail Mode.Dial ra none evs = none) ∧
    (∀ (ra : Multiaddr) (r1 r2 : Option Nat) (evs : List SwarmEv),
      mainTail Mode.Listen ra r1 evs = mainTail Mode.Listen ra r2 evs) :=
  ⟨fun _ _ => rfl, fun _ _ _ _ => rfl⟩

/-- C1, counterexample: a `ConnectionEstablished` event reaching the
initial listen loop (main.rs line 240) makes the process panic — it is
not turned into a `ProtocolViolation` error. -/
theorem unexpected_event_crash_counterexample :
    initialListenHandler SwarmEv.connectionEstablished = HandlerResult.panicked := rfl

/-- C1, amended: in the initial listen loop and the relay bootstrap
loop, every event outside the explicitly handled set makes the process
panic (no `ProtocolViolation` error exists in the driver); the final
event loop panics only on `ReservationReqAccepted` in `Dial` mode (its
`assert!`) and silently ignores all other unhandled events. -/
theorem event_loop_catchall_amended :
    (∀ e : SwarmEv, initialListenHandler e = HandlerResult.panicked ↔
        (e ≠ SwarmEv.newListenAddr ∧ e ≠ SwarmEv.gossipsubMessage)) ∧
    (∀ (learned told : Bool) (e : SwarmEv), bootstrapHandler learned told e = none ↔
        (e ≠ SwarmEv.newListenAddr ∧ e ≠ SwarmEv.dialing ∧
         e ≠ SwarmEv.connectionEstablished ∧ e ≠ SwarmEv.pingEv ∧
         e ≠ SwarmEv.identifySent ∧ e ≠ SwarmEv.identifyReceived)) ∧
    (∀ (m : Mode) (e : SwarmEv), mainLoopHandler m e = HandlerResult.panicked ↔
        (e = SwarmEv.reservationReqAccepted ∧ m = Mode.Dial)) := by
  refine ⟨?_, ?_, ?_⟩ <;> decide

/-- If the relay bootstrap loop exits normally, then (unless the flags
were already set) an `identify::Event::Received` and an
`identify::Event::Sent` were among the processed events. -/
theorem bootstrapLoop_exit_mem (evs : List SwarmEv) :
    ∀ learned told : Bool, bootstrapLoop learned told evs = true →
      (learned = true ∨ SwarmEv.identifyReceived ∈ evs) ∧
      (told = true ∨ SwarmEv.identifySent ∈ evs) := by
  induction evs with
  | nil => intro l t h; exact absurd h (by simp [bootstrapLoop])
  | cons e rest ih =>
    intro l t h
    cases e <;> simp only [bootstrapLoop, bootstrapHandler] at h
    case identifySent =>
      by_cases hl : l = true
      · exact ⟨Or.inl hl, Or.inr (by simp)⟩
      · have hl2 : l = false := by cases l <;> simp_all
        subst hl2
        simp only [Bool.false_and, if_false] at h
        have := ih false true h
        exact ⟨this.1.imp_right (fun hm => List.mem_cons_of_mem _ hm),
               Or.inr (by simp)⟩
    case identifyReceived =>
      by_cases ht : t = true
      · exact ⟨Or.inr (by simp), Or.inl ht⟩
      · have ht2 : t = false := by cases t <;> simp_all
        subst ht2
        simp only [Bool.and_false, if_false] at h
        have := ih true false h
        exact ⟨Or.inr (by simp),
               this.2.imp_right (fun hm => List.mem_cons_of_mem _ hm)⟩
    case newListenAddr =>
      by_cases hlt : (l && t) = true
      · have := Bool.and_eq_true_iff.mp hlt
        exact ⟨Or.inl this.1, Or.inl this.2⟩
      · rw [if_neg hlt] at h
        have := ih l t h
        exact ⟨this.1.imp_right (fun hm => List.mem_cons_of_mem _ hm),
               this.2.imp_right (fun hm => List.mem_cons_of_mem _ hm)⟩
    case dialing =>
      by_cases hlt : (l && t) = true
      · have := Bool.and_eq_true_iff.mp hlt
        exact ⟨Or.inl this.1, Or.inl this.2⟩
      · rw [if_neg hlt] at h
        have := ih l t h
        exact ⟨this.1.imp_right (fun hm => List.mem_cons_of_mem _ hm),
               this.2.imp_right (fun hm => List.mem_cons_of_mem _ hm)⟩
    case connectionEstablished =>
      by_cases hlt : (l && t) = true
      · have := Bool.and_eq_true_iff.mp hlt
        exact ⟨Or.inl this.1, Or.inl this.2⟩
      · rw [if_neg hlt] at h
        have := ih l t h
        exact ⟨this.1.imp_right (fun hm => List.mem_cons_of_mem _ hm),
               this.2.imp_right (fun hm => List.mem_cons_of_mem _ hm)⟩
    case pingEv =>
      by_cases hlt : (l && t) = true
      · have := Bool.and_eq_true_iff.mp hlt
        exact ⟨Or.inl this.1, Or.inl this.2⟩
      · rw [if_neg hlt] at h
        have := ih l t h
        exact ⟨this.1.imp_right (fun hm => List.mem_cons_of_mem _ hm),
               this.2.imp_right (fun hm => List.mem_cons_of_mem _ hm)⟩
    all_goals exact absurd h (by simp)

/-- C7: the tail of `main` performs the mode-specific action only when
the bootstrap loop has exited, which requires both identify events —
the relay's report of our observed address received AND our identify
info sent — and the action is: `Listen` listens on the relay address
extended with `P2pCircuit`; `Dial` dials the relay address extended
with `P2pCircuit` and the remote peer id. -/
theorem bootstrap_gates_mode_action :
    ∀ (mode : Mode) (ra : Multiaddr) (rp : Option Nat) (evs : List SwarmEv)
      (act : MainAction), afterRelayDial mode ra rp evs = some act →
      SwarmEv.identifySent ∈ evs ∧ SwarmEv.identifyReceived ∈ evs ∧
      (mode = Mode.Listen → act = MainAction.listenOn (maWith ra Proto.p2pCircuit)) ∧
      (mode = Mode.Dial → ∃ p, rp = some p ∧
        act = MainAction.dialAddr (maWith (maWith ra Proto.p2pCircuit) (Proto.p2p p))) := by
  intro mode ra rp evs act h
  unfold afterRelayDial at h
  by_cases hb : bootstrapLoop false false evs = true
  · have hm := bootstrapLoop_exit_mem evs false false hb
    rw [if_pos hb] at h
    refine ⟨hm.2.resolve_left (by simp), hm.1.resolve_left (by simp), ?_, ?_⟩
    · intro hmode; subst hmode
      simp only [modeAction, Option.some.injEq] at h
      exact h.symm
    · intro hmode; subst hmode
      cases rp with
      | none => exact absurd h (by simp [modeAction])
      | some p =>
        refine ⟨p, rfl, ?_⟩
        simp only [modeAction, Option.some.injEq] at h
        exact h.symm
  · rw [if_neg hb] at h
    exact absurd h (by simp)

/-- Witness for `bootstrap_gates_mode_action`: a Listen-mode run whose
bootstrap events are exactly one `Sent` and one `Received`. -/
theorem bootstrap_gates_mode_action_witness :
    SwarmEv.identifySent ∈ [SwarmEv.identifySent, SwarmEv.identifyReceived] ∧
    SwarmEv.identifyReceived ∈ [SwarmEv.identifySent, SwarmEv.identifyReceived] ∧
    (Mode.Listen = Mode.Listen →
      MainAction.listenOn [Proto.p2pCircuit] = MainAction.listenOn (maWith [] Proto.p2pCircuit)) ∧
    (Mode.Listen = Mode.Dial → ∃ p, (none : Option Nat) = some p ∧
      MainAction.listenOn [Proto.p2pCircuit] =
        MainAction.dialAddr (maWith (maWith [] Proto.p2pCircuit) (Proto.p2p p))) :=
  bootstrap_gates_mode_action Mode.Listen [] none
    [SwarmEv.identifySent, SwarmEv.identifyReceived]
    (MainAction.listenOn [Proto.p2pCircuit]) rfl

/-!
Registry lemmas.
-/

/-- After removing a peer, looking that peer up yields nothing. -/
theorem regLookup_regRemove_self (l : Registry) (p : Peer) :
    regLookup (regRemove l p) p = none := by
  induction l with
  | nil => rfl
  | cons x rest ih =>
    simp only [regRemove]
    by_cases hx : x.1 = p
    · rw [if_pos hx]; exact ih
    · rw [if_neg hx]; simp only [regLookup]; rw [if_neg hx]; exact ih

/-- Removing one peer does not affect lookups of other peers. -/
theorem regLookup_regRemove_ne (l : Registry) (p q : Peer) (h : q ≠ p) :
    regLookup (regRemove l p) q = regLookup l q := by
  induction l with
  | nil => rfl
  | cons x rest ih =>
    simp only [regRemove, regLookup]
    by_cases hx : x.1 = p
    · rw [if_pos hx, if_neg (fun he : x.1 = q => h (by rw [← he, hx]))]
      exact ih
    · rw [if_neg hx]
      simp only [regLookup]
      by_cases hxq : x.1 = q
      · rw [if_pos hxq, if_pos hxq]
      · rw [if_neg hxq, if_neg hxq]; exact ih

/-- Removing a peer keeps the registry keys duplicate-free. -/
theorem regNodup_regRemove (l : Registry) (p : Peer) (h : regNodup l = true) :
    regNodup (regRemove l p) = true := by
  induction l with
  | nil => rfl
  | cons x rest ih =>
    simp only [regNodup, Bool.and_eq_true] at h
    simp only [regRemove]
    by_cases hx : x.1 = p
    · rw [if_pos hx]; exact ih h.2
    · rw [if_neg hx]
      simp only [regNodup, Bool.and_eq_true]
      refine ⟨?_, ih h.2⟩
      rw [regLookup_regRemove_ne rest p x.1 hx]
      exact h.1

/-- Removing a peer keeps all attempt ids below the bound. -/
theorem regIdsBelow_regRemove (l : Registry) (p : Peer) (n : Nat)
    (h : regIdsBelow l n = true) : regIdsBelow (regRemove l p) n = true := by
  induction l with
  | nil => rfl
  | cons x rest ih =>
    simp only [regIdsBelow, Bool.and_eq_true] at h
    simp only [regRemove]
    by_cases hx : x.1 = p
    · rw [if_pos hx]; exact ih h.2
    · rw [if_neg hx]
      simp only [regIdsBelow, Bool.and_eq_true]
      exact ⟨h.1, ih h.2⟩

/-- The id bound of a registry can be weakened upwards. -/
theorem regIdsBelow_mono (l : Registry) (n m : Nat) (hnm : n ≤ m)
    (h : regIdsBelow l n = true) : regIdsBelow l m = true := by
  induction l with
  | nil => rfl
  | cons x rest ih =>
    simp only [regIdsBelow, Bool.and_eq_true, decide_eq_true_eq] at h ⊢
    exact ⟨Nat.lt_of_lt_of_le h.1 hnm, ih h.2⟩

/-- A registered attempt's id respects the registry's id bound. -/
theorem regIdsBelow_lookup (l : Registry) (p : Peer) (a : HolePunchAttempt)
    (n : Nat) (hb : regIdsBelow l n = true) (hl : regLookup l p = some a) :
    a.id < n := by
  induction l with
  | nil => exact absurd hl (by simp [regLookup])
  | cons x rest ih =>
    simp only [regIdsBelow, Bool.and_eq_true, decide_eq_true_eq] at hb
    simp only [regLookup] at hl
    by_cases hx : x.1 = p
    · rw [if_pos hx] at hl
      obtain rfl : x.2 = a := by injection hl
      exact hb.1
    · rw [if_neg hx] at hl; exact ih hb.2 hl

/-- Removing a peer cannot introduce an attempt id. -/
theorem regNoId_regRemove (l : Registry) (p : Peer) (i : Nat)
    (h : regNoId l i = true) : regNoId (regRemove l p) i = true := by
  induction l with
  | nil => rfl
  | cons x rest ih =>
    simp only [regNoId, Bool.and_eq_true] at h
    simp only [regRemove]
    by_cases hx : x.1 = p
    · rw [if_pos hx]; exact ih h.2
    · rw [if_neg hx]
      simp only [regNoId, Bool.and_eq_true]
      exact ⟨h.1, ih h.2⟩

/-- A registered attempt cannot carry an id that is absent from the
registry. -/
theorem regNoId_lookup (l : Registry) (p : Peer) (a : HolePunchAttempt)
    (i : Nat) (h : regNoId l i = true) (hl : regLookup l p = some a) :
    a.id ≠ i := by
  induction l with
  | nil => exact absurd hl (by simp [regLookup])
  | cons x rest ih =>
    simp only [regNoId, Bool.and_eq_true, decide_eq_true_eq] at h
    simp only [regLookup] at hl
    by_cases hx : x.1 = p
    · rw [if_pos hx] at hl
      obtain rfl : x.2 = a := by injection hl
      exact h.1
    · rw [if_neg hx] at hl; exact ih h.2 hl

/-- The fresh id bound itself does not occur in the registry. -/
theorem regNoId_of_below (l : Registry) (n : Nat)
    (h : regIdsBelow l n = true) : regNoId l n = true := by
  induction l with
  | nil => rfl
  | cons x rest ih =>
    simp only [regIdsBelow, Bool.and_eq_true, decide_eq_true_eq] at h
    simp only [regNoId, Bool.and_eq_true, decide_eq_true_eq]
    exact ⟨Nat.ne_of_lt h.1, ih h.2⟩

/-- Removing a peer keeps attempt ids pairwise distinct. -/
theorem regIdsNodup_regRemove (l : Registry) (p : Peer)
    (h : regIdsNodup l = true) : regIdsNodup (regRemove l p) = true := by
  induction l with
  | nil => rfl
  | cons x rest ih =>
    simp only [regIdsNodup, Bool.and_eq_true] at h
    simp only [regRemove]
    by_cases hx : x.1 = p
    · rw [if_pos hx]; exact ih h.2
    · rw [if_neg hx]
      simp only [regIdsNodup, Bool.and_eq_true]
      exact ⟨regNoId_regRemove rest p x.2.id h.1, ih h.2⟩

/-- Removing an absent peer changes nothing. -/
theorem regRemove_of_lookup_none (l : Registry) (p : Peer)
    (h : regLookup l p = none) : regRemove l p = l := by
  induction l with
  | nil => rfl
  | cons x rest ih =>
    simp only [regLookup] at h
    by_cases hx : x.1 = p
    · rw [if_pos hx] at h; exact absurd h (by simp)
    · rw [if_neg hx] at h
      simp only [regRemove]
      rw [if_neg hx, ih h]

/-- Removing a registered attempt's peer removes the last occurrence of
its id (ids being pairwise distinct). -/
theorem regNoId_regRemove_of_lookup (l : Registry) (p : Peer)
    (a : HolePunchAttempt) (hnd : regNodup l = true)
    (hid : regIdsNodup l = true) (hl : regLookup l p = some a) :
    regNoId (regRemove l p) a.id = true := by
  induction l with
  | nil => exact absurd hl (by simp [regLookup])
  | cons x rest ih =>
    simp only [regNodup, Bool.and_eq_true] at hnd
    simp only [regIdsNodup, Bool.and_eq_true] at hid
    simp only [regLookup] at hl
    by_cases hx : x.1 = p
    · rw [if_pos hx] at hl
      obtain rfl : x.2 = a := by injection hl
      simp only [regRemove]
      rw [if_pos hx]
      have hrest : regLookup rest p = none := by
        have h0 := hnd.1
        rw [hx] at h0
        exact Option.isNone_iff_eq_none.mp h0
      rw [regRemove_of_lookup_none rest p hrest]
      exact hid.1
    · rw [if_neg hx] at hl
      simp only [regRemove]
      rw [if_neg hx]
      simp only [regNoId, Bool.and_eq_true, decide_eq_true_eq]
      refine ⟨?_, ih hnd.2 hid.2 hl⟩
      exact fun he => (regNoId_lookup rest p a x.2.id hid.1 hl) he.symm

/-- Adding an entry whose id is absent keeps `regNoId`. -/
theorem regNoId_cons (rest : Registry) (p : Peer) (a : HolePunchAttempt)
    (i : Nat) (h1 : a.id ≠ i) (h2 : regNoId rest i = true) :
    regNoId ((p, a) :: rest) i = true := by
  show (decide (a.id ≠ i) && regNoId rest i) = true
  rw [decide_eq_true h1, h2]; rfl

/-!
Coordinator well-formedness lemmas.
-/

/-- Unfolding of `Coordinator.WF` into its three conjuncts. -/
theorem WF_unfold (c : Coordinator) : c.WF = true ↔
    (regNodup c.attempts = true ∧ regIdsBelow c.attempts c.nextId = true ∧
     regIdsNodup c.attempts = true) := by
  simp [Coordinator.WF, Bool.and_eq_true, and_assoc]

/-- Adding a fresh entry to a well-formed registry keeps all three
registry invariants. -/
theorem regWF_cons (rest : Registry) (p : Peer) (a : HolePunchAttempt)
    (n : Nat) (h1 : regNodup rest = true) (h2 : regIdsBelow rest n = true)
    (h3 : regIdsNodup rest = true) (hl : regLookup rest p = none)
    (hid : a.id < n) (hno : regNoId rest a.id = true) :
    regNodup ((p, a) :: rest) = true ∧
    regIdsBelow ((p, a) :: rest) n = true ∧
    regIdsNodup ((p, a) :: rest) = true := by
  refine ⟨?_, ?_, ?_⟩
  · show ((regLookup rest p).isNone && regNodup rest) = true
    rw [hl, h1]; rfl
  · show (decide (a.id < n) && regIdsBelow rest n) = true
    rw [decide_eq_true hid, h2]; rfl
  · show (regNoId rest a.id && regIdsNodup rest) = true
    rw [hno, h3]; rfl

/-- Registering a fresh attempt (id `nextId`, counter bumped) for a peer
that has none preserves well-formedness. -/
theorem WF_insert_fresh (c : Coordinator) (p : Peer) (a : HolePunchAttempt)
    (rl : List Peer) (h : c.WF = true)
    (hl : regLookup c.attempts p = none) (hid : a.id = c.nextId) :
    Coordinator.WF ⟨(p, a) :: c.attempts, c.nextId + 1, rl⟩ = true := by
  rw [WF_unfold] at h ⊢
  obtain ⟨h1, h2, h3⟩ := h
  exact regWF_cons c.attempts p a (c.nextId + 1) h1
    (regIdsBelow_mono c.attempts c.nextId (c.nextId + 1) (Nat.le_succ _) h2) h3 hl
    (by rw [hid]; exact Nat.lt_succ_self _)
    (by rw [hid]; exact regNoId_of_below _ _ h2)

/-- Replacing a registered attempt with one of the same id preserves
well-formedness. -/
theorem WF_setAttempt (c : Coordinator) (p : Peer) (a a2 : HolePunchAttempt)
    (h : c.WF = true) (hl : regLookup c.attempts p = some a)
    (hid : a2.id = a.id) : (setAttempt c p a2).WF = true := by
  rw [WF_unfold] at h ⊢
  obtain ⟨h1, h2, h3⟩ := h
  exact regWF_cons (regRemove c.attempts p) p a2 c.nextId
    (regNodup_regRemove _ _ h1) (regIdsBelow_regRemove _ _ _ h2)
    (regIdsNodup_regRemove _ _ h3) (regLookup_regRemove_self _ _)
    (by rw [hid]; exact regIdsBelow_lookup _ _ _ _ h2 hl)
    (by rw [hid]; exact regNoId_regRemove_of_lookup _ _ _ h1 h3 hl)

/-- Removing an attempt preserves well-formedness. -/
theorem WF_removeAttempt (c : Coordinator) (p : Peer) (h : c.WF = true) :
    (removeAttempt c p).WF = true := by
  rw [WF_unfold] at h ⊢
  obtain ⟨h1, h2, h3⟩ := h
  exact ⟨regNodup_regRemove _ _ h1, regIdsBelow_regRemove _ _ _ h2,
         regIdsNodup_regRemove _ _ h3⟩

/-- `initiate` without a relayed path fails with `NoRelayedPath`. -/
theorem initiate_no_relay (c : Coordinator) (remote : Peer) (lc : List Addr)
    (d : Nat) (hr : hasRelayedPath c remote = false) :
    initiate c remote lc d = .error .NoRelayedPath := by
  unfold initiate; rw [hr]; rfl

/-- `initiate` with an unresolved prior attempt fails with
`AttemptInProgress`. -/
theorem initiate_in_progress (c : Coordinator) (remote : Peer) (lc : List Addr)
    (d : Nat) (a : HolePunchAttempt) (hr : hasRelayedPath c remote = true)
    (hs : regLookup c.attempts remote = some a) :
    initiate c remote lc d = .error .AttemptInProgress := by
  unfold initiate; rw [hr, hs]; rfl

/-- `initiate` with a relayed path and no prior attempt registers a
fresh Initiator attempt and sends `Connect(localCandidates)`. -/
theorem initiate_ok (c : Coordinator) (remote : Peer) (lc : List Addr)
    (d : Nat) (hr : hasRelayedPath c remote = true)
    (hs : regLookup c.attempts remote = none) :
    initiate c remote lc d = Except.ok
      { coord := { c with
          attempts := (remote,
            { id := c.nextId, role := Role.Initiator,
              state := AState.WaitingForConnectResponse, round := 1,
              sentCandidates := lc, remoteCandidates := [],
              pendingDials := [], deadline := d }) :: c.attempts,
          nextId := c.nextId + 1 },
        send := some (Msg.Connect lc), dials := [], notify := none } := by
  unfold initiate; rw [hr, hs]; rfl

/-- A received `Connect` without a relayed path is rejected. -/
theorem onConnectReceived_no_relay (c : Coordinator) (remote : Peer)
    (rc lc : List Addr) (d : Nat) (hr : hasRelayedPath c remote = false) :
    onConnectReceived c remote rc lc d = .error .NoRelayedPath := by
  unfold onConnectReceived; rw [hr]; rfl

/-- A received `Connect` for a fresh peer goes to `handleIncoming`. -/
theorem onConnectReceived_new (c : Coordinator) (remote : Peer)
    (rc lc : List Addr) (d : Nat) (hr : hasRelayedPath c remote = true)
    (hl : regLookup c.attempts remote = none) :
    onConnectReceived c remote rc lc d = .ok (handleIncoming c remote rc lc d) := by
  unfold onConnectReceived; rw [hr, hl]; rfl

/-- A received `Connect` for a peer with a registered attempt goes to
that attempt's state machine. -/
theorem onConnectReceived_existing (c : Coordinator) (remote : Peer)
    (rc lc : List Addr) (d : Nat) (a : HolePunchAttempt)
    (hr : hasRelayedPath c remote = true)
    (hl : regLookup c.attempts remote = some a) :
    onConnectReceived c remote rc lc d = .ok (onMessage c remote a (.Connect rc)) := by
  unfold onConnectReceived; rw [hr, hl]; rfl

/-- A received `Sync` for a peer with no registered attempt is
discarded. -/
theorem onSyncReceived_none (c : Coordinator) (remote : Peer)
    (hl : regLookup c.attempts remote = none) :
    onSyncReceived c remote = noopOut c := by
  unfold onSyncReceived; rw [hl]

/-- A received `Sync` for a registered attempt goes to its state
machine. -/
theorem onSyncReceived_some (c : Coordinator) (remote : Peer)
    (a : HolePunchAttempt) (hl : regLookup c.attempts remote = some a) :
    onSyncReceived c remote = onMessage c remote a .Sync := by
  unfold onSyncReceived; rw [hl]

/-- A dial completion for a peer with no registered attempt is
discarded. -/
theorem onDialResult_none (c : Coordinator) (r : DialResult)
    (hl : regLookup c.attempts r.peer = none) :
    onDialResult c r = noopOut c := by
  unfold onDialResult; rw [hl]

/-- A dial completion for a registered attempt goes to
`onDialResultA`. -/
theorem onDialResult_someEq (c : Coordinator) (r : DialResult)
    (a : HolePunchAttempt) (hl : regLookup c.attempts r.peer = some a) :
    onDialResult c r = onDialResultA c r a := by
  unfold onDialResult; rw [hl]

/-- A tick for a peer with no registered attempt is a no-op. -/
theorem onTick_none (c : Coordinator) (p : Peer) (now : Nat)
    (hl : regLookup c.attempts p = none) : onTick c p now = noopOut c := by
  unfold onTick; rw [hl]

/-- A tick for a registered attempt times it out exactly when the clock
has reached its deadline. -/
theorem onTick_some (c : Coordinator) (p : Peer) (now : Nat)
    (a : HolePunchAttempt) (hl : regLookup c.attempts p = some a) :
    onTick c p now =
      if a.deadline ≤ now then
        { coord := removeAttempt c p, send := none, dials := [],
          notify := some (Notification.failed p FailReason.Timeout) }
      else noopOut c := by
  unfold onTick; rw [hl]

/-- Every event-loop step preserves coordinator well-formedness — in
particular the active-attempts registry keeps at most one attempt per
peer and all attempt ids distinct and fresh-bounded. -/
theorem step_WF (c : Coordinator) (cmd : Cmd) (h : c.WF = true) :
    (step c cmd).WF = true := by
  cases cmd with
  | initiateCmd remote lc d =>
    simp only [step]
    cases hr : hasRelayedPath c remote with
    | false => rw [initiate_no_relay c remote lc d hr]; exact h
    | true =>
      cases hs : regLookup c.attempts remote with
      | some a => rw [initiate_in_progress c remote lc d a hr hs]; exact h
      | none =>
        rw [initiate_ok c remote lc d hr hs]
        exact WF_insert_fresh c remote _ c.relayed h hs rfl
  | connectReceived remote rc lc d =>
    simp only [step]
    cases hr : hasRelayedPath c remote with
    | false => rw [onConnectReceived_no_relay c remote rc lc d hr]; exact h
    | true =>
      cases hl : regLookup c.attempts remote with
      | none =>
        rw [onConnectReceived_new c remote rc lc d hr hl]
        exact WF_insert_fresh c remote _ c.relayed h hl rfl
      | some a =>
        rw [onConnectReceived_existing c remote rc lc d a hr hl]
        unfold onMessage
        cases hst : a.state with
        | WaitingForConnectResponse => exact WF_setAttempt c remote a _ h hl rfl
        | WaitingForSync => exact h
        | Racing => exact h
        | Succeeded => exact h
        | Failed fr => exact h
  | syncReceived remote =>
    simp only [step]
    cases hl : regLookup c.attempts remote with
    | none => rw [onSyncReceived_none c remote hl]; exact h
    | some a =>
      rw [onSyncReceived_some c remote a hl]
      unfold onMessage
      cases hst : a.state with
      | WaitingForConnectResponse => exact WF_removeAttempt c remote h
      | WaitingForSync => exact WF_setAttempt c remote a _ h hl rfl
      | Racing => exact h
      | Succeeded => exact h
      | Failed fr => exact h
  | dialResult r =>
    simp only [step]
    cases hl : regLookup c.attempts r.peer with
    | none => rw [onDialResult_none c r hl]; exact h
    | some a =>
      rw [onDialResult_someEq c r a hl]
      unfold onDialResultA
      by_cases hid : a.id = r.attemptId
      · rw [if_pos hid]
        cases hst : a.state with
        | Racing =>
          cases hok : r.ok with
          | true => exact WF_removeAttempt c r.peer h
          | false =>
            cases hemp : (a.pendingDials.erase r.addr).isEmpty with
            | true => exact WF_removeAttempt c r.peer h
            | false => exact WF_setAttempt c r.peer a _ h hl rfl
        | WaitingForConnectResponse => exact h
        | WaitingForSync => exact h
        | Succeeded => exact h
        | Failed fr => exact h
      · rw [if_neg hid]; exact h
  | tick p now =>
    simp only [step]
    cases hl : regLookup c.attempts p with
    | none => rw [onTick_none c p now hl]; exact h
    | some a =>
      rw [onTick_some c p now a hl]
      by_cases hd : a.deadline ≤ now
      · rw [if_pos hd]; exact WF_removeAttempt c p h
      · rw [if_neg hd]; exact h
  | relayUp p =>
    rw [WF_unfold] at h ⊢
    exact h
  | relayDown p =>
    rw [WF_unfold] at h ⊢
    obtain ⟨h1, h2, h3⟩ := h
    exact ⟨regNodup_regRemove _ _ h1, regIdsBelow_regRemove _ _ _ h2,
           regIdsNodup_regRemove _ _ h3⟩

/-- Running any command sequence preserves well-formedness. -/
theorem steps_WF (cmds : List Cmd) : ∀ c : Coordinator, c.WF = true →
    (steps c cmds).WF = true := by
  induction cmds with
  | nil => exact fun c h => h
  | cons cmd rest ih =>
    intro c h
    exact ih (step c cmd) (step_WF c cmd h)

/-- Removing a peer keeps every registered attempt active. -/
theorem regActive_regRemove (l : Registry) (p : Peer)
    (h : regActive l = true) : regActive (regRemove l p) = true := by
  induction l with
  | nil => rfl
  | cons x rest ih =>
    simp only [regActive, Bool.and_eq_true] at h
    simp only [regRemove]
    by_cases hx : x.1 = p
    · rw [if_pos hx]; exact ih h.2
    · rw [if_neg hx]
      simp only [regActive, Bool.and_eq_true]
      exact ⟨h.1, ih h.2⟩

/-- Adding an active attempt keeps every registered attempt active. -/
theorem regActive_cons (rest : Registry) (p : Peer) (a : HolePunchAttempt)
    (h1 : a.state.isTerminal = false) (h2 : regActive rest = true) :
    regActive ((p, a) :: rest) = true := by
  show (!a.state.isTerminal && regActive rest) = true
  rw [h1, h2]; rfl

/-- Every event-loop step keeps every registered attempt active: a
resolving step removes the attempt in the same step, so the registry
never holds a terminal (`Succeeded`/`Failed`) attempt. -/
theorem step_active (c : Coordinator) (cmd : Cmd)
    (h : regActive c.attempts = true) :
    regActive (step c cmd).attempts = true := by
  cases cmd with
  | initiateCmd remote lc d =>
    simp only [step]
    cases hr : hasRelayedPath c remote with
    | false => rw [initiate_no_relay c remote lc d hr]; exact h
    | true =>
      cases hs : regLookup c.attempts remote with
      | some a => rw [initiate_in_progress c remote lc d a hr hs]; exact h
      | none =>
        rw [initiate_ok c remote lc d hr hs]
        exact regActive_cons c.attempts remote _ rfl h
  | connectReceived remote rc lc d =>
    simp only [step]
    cases hr : hasRelayedPath c remote with
    | false => rw [onConnectReceived_no_relay c remote rc lc d hr]; exact h
    | true =>
      cases hl : regLookup c.attempts remote with
      | none =>
        rw [onConnectReceived_new c remote rc lc d hr hl]
        exact regActive_cons c.attempts remote _ rfl h
      | some a =>
        rw [onConnectReceived_existing c remote rc lc d a hr hl]
        unfold onMessage
        cases hst : a.state with
        | WaitingForConnectResponse =>
          exact regActive_cons _ remote _ rfl (regActive_regRemove c.attempts remote h)
        | WaitingForSync => exact h
        | Racing => exact h
        | Succeeded => exact h
        | Failed fr => exact h
  | syncReceived remote =>
    simp only [step]
    cases hl : regLookup c.attempts remote with
    | none => rw [onSyncReceived_none c remote hl]; exact h
    | some a =>
      rw [onSyncReceived_some c remote a hl]
      unfold onMessage
      cases hst : a.state with
      | WaitingForConnectResponse => exact regActive_regRemove c.attempts remote h
      | WaitingForSync =>
        exact regActive_cons _ remote _ rfl (regActive_regRemove c.attempts remote h)
      | Racing => exact h
      | Succeeded => exact h
      | Failed fr => exact h
  | dialResult r =>
    simp only [step]
    cases hl : regLookup c.attempts r.peer with
    | none => rw [onDialResult_none c r hl]; exact h
    | some a =>
      rw [onDialResult_someEq c r a hl]
      unfold onDialResultA
      by_cases hid : a.id = r.attemptId
      · rw [if_pos hid]
        cases hst : a.state with
        | Racing =>
          cases hok : r.ok with
          | true => exact regActive_regRemove c.attempts r.peer h
          | false =>
            cases hemp : (a.pendingDials.erase r.addr).isEmpty with
            | true => exact regActive_regRemove c.attempts r.peer h
            | false =>
              exact regActive_cons _ r.peer _ rfl (regActive_regRemove c.attempts r.peer h)
        | WaitingForConnectResponse => exact h
        | WaitingForSync => exact h
        | Succeeded => exact h
        | Failed fr => exact h
      · rw [if_neg hid]; exact h
  | tick p now =>
    simp only [step]
    cases hl : regLookup c.attempts p with
    | none => rw [onTick_none c p now hl]; exact h
    | some a =>
      rw [onTick_some c p now a hl]
      by_cases hd : a.deadline ≤ now
      · rw [if_pos hd]; exact regActive_regRemove c.attempts p h
      · rw [if_neg hd]; exact h
  | relayUp p => exact h
  | relayDown p => exact regActive_regRemove c.attempts p h

/-- Running any command sequence keeps every registered attempt
active. -/
theorem steps_active (cmds : List Cmd) : ∀ c : Coordinator,
    regActive c.attempts = true → regActive (steps c cmds).attempts = true := by
  induction cmds with
  | nil => exact fun c h => h
  | cons cmd rest ih =>
    intro c h
    exact ih (step c cmd) (step_active c cmd h)

/-- Helper for `regNoId` preservation when replacing an attempt. -/
theorem regNoId_setAttempt (c : Coordinator) (p : Peer)
    (a a2 : HolePunchAttempt) (i : Nat)
    (hl : regLookup c.attempts p = some a) (hid : a2.id = a.id)
    (hno : regNoId c.attempts i = true) :
    regNoId (setAttempt c p a2).attempts i = true := by
  apply regNoId_cons
  · rw [hid]; exact regNoId_lookup c.attempts p a i hno hl
  · exact regNoId_regRemove c.attempts p i hno

/-- A step never resurrects a dead attempt id: an id below the
fresh-id counter that is absent from the registry stays absent, and the
counter never decreases. -/
theorem step_fresh (c : Coordinator) (cmd : Cmd) (i : Nat)
    (hlt : i < c.nextId) (hno : regNoId c.attempts i = true) :
    i < (step c cmd).nextId ∧ regNoId (step c cmd).attempts i = true := by
  cases cmd with
  | initiateCmd remote lc d =>
    simp only [step]
    cases hr : hasRelayedPath c remote with
    | false => rw [initiate_no_relay c remote lc d hr]; exact ⟨hlt, hno⟩
    | true =>
      cases hs : regLookup c.attempts remote with
      | some a => rw [initiate_in_progress c remote lc d a hr hs]; exact ⟨hlt, hno⟩
      | none =>
        rw [initiate_ok c remote lc d hr hs]
        exact ⟨Nat.lt_succ_of_lt hlt,
               regNoId_cons c.attempts remote _ i (Nat.ne_of_gt hlt) hno⟩
  | connectReceived remote rc lc d =>
    simp only [step]
    cases hr : hasRelayedPath c remote with
    | false => rw [onConnectReceived_no_relay c remote rc lc d hr]; exact ⟨hlt, hno⟩
    | true =>
      cases hl : regLookup c.attempts remote with
      | none =>
        rw [onConnectReceived_new c remote rc lc d hr hl]
        exact ⟨Nat.lt_succ_of_lt hlt,
               regNoId_cons c.attempts remote _ i (Nat.ne_of_gt hlt) hno⟩
      | some a =>
        rw [onConnectReceived_existing c remote rc lc d a hr hl]
        unfold onMessage
        cases hst : a.state with
        | WaitingForConnectResponse =>
          exact ⟨hlt, regNoId_setAttempt c remote a _ i hl rfl hno⟩
        | WaitingForSync => exact ⟨hlt, hno⟩
        | Racing => exact ⟨hlt, hno⟩
        | Succeeded => exact ⟨hlt, hno⟩
        | Failed fr => exact ⟨hlt, hno⟩
  | syncReceived remote =>
    simp only [step]
    cases hl : regLookup c.attempts remote with
    | none => rw [onSyncReceived_none c remote hl]; exact ⟨hlt, hno⟩
    | some a =>
      rw [onSyncReceived_some c remote a hl]
      unfold onMessage
      cases hst : a.state with
      | WaitingForConnectResponse =>
        exact ⟨hlt, regNoId_regRemove c.attempts remote i hno⟩
      | WaitingForSync =>
        exact ⟨hlt, regNoId_setAttempt c remote a _ i hl rfl hno⟩
      | Racing => exact ⟨hlt, hno⟩
      | Succeeded => exact ⟨hlt, hno⟩
      | Failed fr => exact ⟨hlt, hno⟩
  | dialResult r =>
    simp only [step]
    cases hl : regLookup c.attempts r.peer with
    | none => rw [onDialResult_none c r hl]; exact ⟨hlt, hno⟩
    | some a =>
      rw [onDialResult_someEq c r a hl]
      unfold onDialResultA
      by_cases hid : a.id = r.attemptId
      · rw [if_pos hid]
        cases hst : a.state with
        | Racing =>
          cases hok : r.ok with
          | true => exact ⟨hlt, regNoId_regRemove c.attempts r.peer i hno⟩
          | false =>
            cases hemp : (a.pendingDials.erase r.addr).isEmpty with
            | true => exact ⟨hlt, regNoId_regRemove c.attempts r.peer i hno⟩
            | false => exact ⟨hlt, regNoId_setAttempt c r.peer a _ i hl rfl hno⟩
        | WaitingForConnectResponse => exact ⟨hlt, hno⟩
        | WaitingForSync => exact ⟨hlt, hno⟩
        | Succeeded => exact ⟨hlt, hno⟩
        | Failed fr => exact ⟨hlt, hno⟩
      · rw [if_neg hid]; exact ⟨hlt, hno⟩
  | tick p now =>
    simp only [step]
    cases hl : regLookup c.attempts p with
    | none => rw [onTick_none c p now hl]; exact ⟨hlt, hno⟩
    | some a =>
      rw [onTick_some c p now a hl]
      by_cases hd : a.deadline ≤ now
      · rw [if_pos hd]; exact ⟨hlt, regNoId_regRemove c.attempts p i hno⟩
      · rw [if_neg hd]; exact ⟨hlt, hno⟩
  | relayUp p => exact ⟨hlt, hno⟩
  | relayDown p => exact ⟨hlt, regNoId_regRemove c.attempts p i hno⟩

/-- Over any command sequence, a dead attempt id stays dead. -/
theorem steps_fresh (cmds : List Cmd) : ∀ (c : Coordinator) (i : Nat),
    i < c.nextId → regNoId c.attempts i = true →
    i < (steps c cmds).nextId ∧ regNoId (steps c cmds).attempts i = true := by
  induction cmds with
  | nil => exact fun c i h1 h2 => ⟨h1, h2⟩
  | cons cmd rest ih =>
    intro c i h1 h2
    have h3 := step_fresh c cmd i h1 h2
    exact ih (step c cmd) i h3.1 h3.2

/-- A dial completion carrying an attempt id absent from the registry is
a complete no-op: no state change, no message, no dial, no
notification. -/
theorem onDialResult_dead (c : Coordinator) (r : DialResult)
    (hno : regNoId c.attempts r.attemptId = true) :
    onDialResult c r = noopOut c := by
  cases hl : regLookup c.attempts r.peer with
  | none => exact onDialResult_none c r hl
  | some a =>
    rw [onDialResult_someEq c r a hl]
    unfold onDialResultA
    rw [if_neg (regNoId_lookup c.attempts r.peer a r.attemptId hno hl)]

/-- A successful dial completion of the current `Racing` attempt
resolves it: the attempt is removed and the success is notified. -/
theorem onDialResult_success (c : Coordinator) (r : DialResult)
    (a : HolePunchAttempt) (hl : regLookup c.attempts r.peer = some a)
    (hid : r.attemptId = a.id) (hst : a.state = AState.Racing)
    (hok : r.ok = true) :
    onDialResult c r =
      { coord := removeAttempt c r.peer, send := none, dials := [],
        notify := some (Notification.established r.peer r.addr) } := by
  rw [onDialResult_someEq c r a hl]
  unfold onDialResultA
  rw [if_pos hid.symm, hst, hok]
  rfl

/-- `initiate` with any unresolved prior attempt (isSome form). -/
theorem initiate_in_progress2 (c : Coordinator) (remote : Peer)
    (lc : List Addr) (d : Nat) (hr : hasRelayedPath c remote = true)
    (hs : (regLookup c.attempts remote).isSome = true) :
    initiate c remote lc d = .error .AttemptInProgress := by
  unfold initiate; rw [hr, hs]; rfl

/-- C2: the active-attempts registry holds at most one attempt per
remote peer at every instant (well-formedness, including distinct keys,
is preserved by every step, and no registered attempt is ever
terminal); overlapping `initiate` calls for one peer create exactly one
attempt, the second call failing with `AttemptInProgress`; and a
resolving (terminal) attempt is removed at once, after which a new
`initiate` for that peer is permitted again. -/
theorem one_attempt_per_peer :
    ∀ c : Coordinator, c.WF = true → regActive c.attempts = true →
      (∀ cmds : List Cmd, (steps c cmds).WF = true ∧
        regActive (steps c cmds).attempts = true) ∧
      (∀ (p : Peer) (lc : List Addr) (d : Nat) (o : StepOut),
        initiate c p lc d = Except.ok o →
        (regLookup o.coord.attempts p).isSome = true ∧
        (∀ (lc2 : List Addr) (d2 : Nat),
          initiate o.coord p lc2 d2 = Except.error CoordError.AttemptInProgress)) ∧
      (∀ (r : DialResult) (a : HolePunchAttempt),
        regLookup c.attempts r.peer = some a → r.attemptId = a.id →
        a.state = AState.Racing → r.ok = true →
        regLookup (onDialResult c r).coord.attempts r.peer = none ∧
        (∀ (lc : List Addr) (d : Nat),
          hasRelayedPath c r.peer = true →
          ∃ o2 : StepOut,
            initiate (onDialResult c r).coord r.peer lc d = Except.ok o2)) := by
  intro c hwf hact
  refine ⟨fun cmds => ⟨steps_WF cmds c hwf, steps_active cmds c hact⟩, ?_, ?_⟩
  · intro p lc d o ho
    cases hr : hasRelayedPath c p with
    | false =>
      rw [initiate_no_relay c p lc d hr] at ho
      exact absurd ho (by simp)
    | true =>
      cases hs : regLookup c.attempts p with
      | some a =>
        rw [initiate_in_progress c p lc d a hr hs] at ho
        exact absurd ho (by simp)
      | none =>
        rw [initiate_ok c p lc d hr hs] at ho
        injection ho with h2
        subst h2
        constructor
        · simp [regLookup]
        · intro lc2 d2
          exact initiate_in_progress2 _ p lc2 d2 hr (by simp [regLookup])
  · intro r a hl hid hst hok
    have heq := onDialResult_success c r a hl hid hst hok
    constructor
    · rw [heq]
      exact regLookup_regRemove_self c.attempts r.peer
    · intro lc d hrel
      refine ⟨_, initiate_ok _ r.peer lc d ?_ ?_⟩
      · rw [heq]; exact hrel
      · rw [heq]; exact regLookup_regRemove_self c.attempts r.peer

/-- Witness for `one_attempt_per_peer`: a run from the empty registry
that initiates toward peer 7. -/
theorem one_attempt_per_peer_witness :
    (steps (⟨[], 0, [7]⟩ : Coordinator) [Cmd.initiateCmd 7 [1] 50]).WF = true ∧
    regActive (steps (⟨[], 0, [7]⟩ : Coordinator) [Cmd.initiateCmd 7 [1] 50]).attempts = true :=
  (one_attempt_per_peer ⟨[], 0, [7]⟩ rfl rfl).1 [Cmd.initiateCmd 7 [1] 50]

/-- C3: once an attempt resolves — `Succeeded` via a winning dial, or
`Failed(Timeout)` at deadline expiry with dial tasks possibly still in
flight — it is removed from the registry, the outcome is notified
exactly once, and every later dial completion carrying that attempt's
id — a stale task of the resolved attempt — is discarded as a complete
no-op after any further command sequence: no state transition, no
error, no second success notification. -/
theorem resolved_attempt_ignores_stale_dials :
    ∀ (c : Coordinator) (p : Peer) (a : HolePunchAttempt),
      c.WF = true →
      regLookup c.attempts p = some a →
      (∀ r : DialResult, r.peer = p → r.attemptId = a.id →
        a.state = AState.Racing → r.ok = true →
        (onDialResult c r).notify = some (Notification.established p r.addr) ∧
        regLookup (onDialResult c r).coord.attempts p = none ∧
        (∀ (cmds : List Cmd) (r2 : DialResult), r2.attemptId = a.id →
          onDialResult (steps (onDialResult c r).coord cmds) r2 =
            noopOut (steps (onDialResult c r).coord cmds))) ∧
      (∀ now : Nat, a.deadline ≤ now →
        (onTick c p now).notify = some (Notification.failed p FailReason.Timeout) ∧
        regLookup (onTick c p now).coord.attempts p = none ∧
        (∀ (cmds : List Cmd) (r2 : DialResult), r2.attemptId = a.id →
          onDialResult (steps (onTick c p now).coord cmds) r2 =
            noopOut (steps (onTick c p now).coord cmds))) := by
  intro c p a hwf hl
  obtain ⟨h1, h2, h3⟩ := (WF_unfold c).mp hwf
  have hidlt : a.id < c.nextId :=
    regIdsBelow_lookup c.attempts p a c.nextId h2 hl
  have hnod : regNoId (regRemove c.attempts p) a.id = true :=
    regNoId_regRemove_of_lookup c.attempts p a h1 h3 hl
  have hdead : ∀ (cmds : List Cmd) (r2 : DialResult), r2.attemptId = a.id →
      onDialResult (steps (removeAttempt c p) cmds) r2 =
        noopOut (steps (removeAttempt c p) cmds) := by
    intro cmds r2 hr2
    have hf := steps_fresh cmds (removeAttempt c p) a.id hidlt hnod
    apply onDialResult_dead
    rw [hr2]
    exact hf.2
  constructor
  · intro r hrp hid hst hok
    have heq := onDialResult_success c r a (by rw [hrp]; exact hl) hid hst hok
    refine ⟨?_, ?_, ?_⟩
    · rw [heq, hrp]
    · rw [heq, hrp]
      exact regLookup_regRemove_self c.attempts p
    · intro cmds r2 hr2
      rw [heq, hrp]
      exact hdead cmds r2 hr2
  · intro now hge
    rw [onTick_some c p now a hl, if_pos hge]
    exact ⟨rfl, regLookup_regRemove_self c.attempts p, hdead⟩

/-- Witness for `resolved_attempt_ignores_stale_dials`: peer 7's Racing
attempt (candidate dial 9 still in flight) hits its deadline at tick
50, resolves `Failed(Timeout)`, is removed, and the stale completion of
dial 9 afterwards is a no-op. -/
theorem resolved_attempt_ignores_stale_dials_witness :
    (onTick (⟨[(7, ⟨0, Role.Initiator, AState.Racing, 2, [1], [9], [9], 50⟩)], 1, [7]⟩ : Coordinator)
        7 50).notify = some (Notification.failed 7 FailReason.Timeout) ∧
    regLookup (onTick
        (⟨[(7, ⟨0, Role.Initiator, AState.Racing, 2, [1], [9], [9], 50⟩)], 1, [7]⟩ : Coordinator)
        7 50).coord.attempts 7 = none ∧
    onDialResult
        (steps (onTick
          (⟨[(7, ⟨0, Role.Initiator, AState.Racing, 2, [1], [9], [9], 50⟩)], 1, [7]⟩ : Coordinator)
          7 50).coord [])
        (⟨7, 0, 9, true⟩ : DialResult) =
      noopOut (steps (onTick
          (⟨[(7, ⟨0, Role.Initiator, AState.Racing, 2, [1], [9], [9], 50⟩)], 1, [7]⟩ : Coordinator)
          7 50).coord []) :=
  ⟨((resolved_attempt_ignores_stale_dials
      ⟨[(7, ⟨0, Role.Initiator, AState.Racing, 2, [1], [9], [9], 50⟩)], 1, [7]⟩ 7
      ⟨0, Role.Initiator, AState.Racing, 2, [1], [9], [9], 50⟩
      rfl rfl).2 50 (Nat.le_refl 50)).1,
   ((resolved_attempt_ignores_stale_dials
      ⟨[(7, ⟨0, Role.Initiator, AState.Racing, 2, [1], [9], [9], 50⟩)], 1, [7]⟩ 7
      ⟨0, Role.Initiator, AState.Racing, 2, [1], [9], [9], 50⟩
      rfl rfl).2 50 (Nat.le_refl 50)).2.1,
   ((resolved_attempt_ignores_stale_dials
      ⟨[(7, ⟨0, Role.Initiator, AState.Racing, 2, [1], [9], [9], 50⟩)], 1, [7]⟩ 7
      ⟨0, Role.Initiator, AState.Racing, 2, [1], [9], [9], 50⟩
      rfl rfl).2 50 (Nat.le_refl 50)).2.2 [] ⟨7, 0, 9, true⟩ rfl⟩

/-- C4: a registered (hence unresolved) attempt with deadline `D` never
times out before `D` — a tick strictly before `D` changes nothing — and
at the first tick at or after `D` it transitions to `Failed(Timeout)`
and is removed, so the transition happens within one tick interval
after `D`. -/
theorem attempt_timeout_monotone :
    ∀ (c : Coordinator) (p : Peer) (a : HolePunchAttempt) (now : Nat),
      regLookup c.attempts p = some a →
      ((now < a.deadline → onTick c p now = noopOut c) ∧
       (a.deadline ≤ now →
         (onTick c p now).notify = some (Notification.failed p FailReason.Timeout) ∧
         regLookup (onTick c p now).coord.attempts p = none)) := by
  intro c p a now hl
  rw [onTick_some c p now a hl]
  constructor
  · intro hlt
    rw [if_neg (not_le.mpr hlt)]
  · intro hge
    rw [if_pos hge]
    exact ⟨rfl, regLookup_regRemove_self c.attempts p⟩

/-- Witness for `attempt_timeout_monotone`: a tick exactly at the
deadline resolves the attempt of peer 7. -/
theorem attempt_timeout_monotone_witness :
    (onTick (⟨[(7, ⟨0, Role.Responder, AState.Racing, 2, [1], [2], [2], 50⟩)], 1, [7]⟩ : Coordinator)
        7 50).notify = some (Notification.failed 7 FailReason.Timeout) ∧
    regLookup (onTick
        (⟨[(7, ⟨0, Role.Responder, AState.Racing, 2, [1], [2], [2], 50⟩)], 1, [7]⟩ : Coordinator)
        7 50).coord.attempts 7 = none :=
  (attempt_timeout_monotone
      ⟨[(7, ⟨0, Role.Responder, AState.Racing, 2, [1], [2], [2], 50⟩)], 1, [7]⟩ 7
      ⟨0, Role.Responder, AState.Racing, 2, [1], [2], [2], 50⟩ 50 rfl).2 (Nat.le_refl 50)

/-- C5: a duplicate `Connect` is idempotent: for a registered attempt in
`WaitingForSync`, processing the same `Connect` again leaves the whole
coordinator state unchanged and sends nothing; for an attempt already
`Racing`, a duplicate `Connect` is a no-op that launches no dial and
does not restart the exchange. -/
theorem duplicate_connect_idempotent :
    ∀ (c : Coordinator) (p : Peer) (a : HolePunchAttempt)
      (rc lc : List Addr) (d : Nat),
      hasRelayedPath c p = true → regLookup c.attempts p = some a →
      ((a.state = AState.WaitingForSync →
          onConnectReceived c p rc lc d = Except.ok (noopOut c)) ∧
       (a.state = AState.Racing →
          onConnectReceived c p rc lc d = Except.ok (noopOut c))) := by
  intro c p a rc lc d hr hl
  rw [onConnectReceived_existing c p rc lc d a hr hl]
  constructor
  · intro hst; unfold onMessage; rw [hst]
  · intro hst; unfold onMessage; rw [hst]

/-- Witness for `duplicate_connect_idempotent`: a duplicate `Connect`
to peer 7's `WaitingForSync` attempt. -/
theorem duplicate_connect_idempotent_witness :
    onConnectReceived
        (⟨[(7, ⟨0, Role.Responder, AState.WaitingForSync, 1, [1], [2], [], 50⟩)], 1, [7]⟩ : Coordinator)
        7 [2] [1] 50 =
      Except.ok (noopOut ⟨[(7, ⟨0, Role.Responder, AState.WaitingForSync, 1, [1], [2], [], 50⟩)], 1, [7]⟩) :=
  (duplicate_connect_idempotent
      ⟨[(7, ⟨0, Role.Responder, AState.WaitingForSync, 1, [1], [2], [], 50⟩)], 1, [7]⟩ 7
      ⟨0, Role.Responder, AState.WaitingForSync, 1, [1], [2], [], 50⟩ [2] [1] 50 rfl rfl).1 rfl

/-- C6: toward a peer with no active relayed connection, `initiate`
fails with `NoRelayedPath` and an incoming `Connect` is rejected with
`NoRelayedPath`; in both cases the coordinator state is unchanged — no
attempt is created and nothing is retried. -/
theorem no_relayed_path_rejected :
    ∀ (c : Coordinator) (p : Peer) (lc rc : List Addr) (d : Nat),
      hasRelayedPath c p = false →
      initiate c p lc d = Except.error CoordError.NoRelayedPath ∧
      onConnectReceived c p rc lc d = Except.error CoordError.NoRelayedPath ∧
      step c (Cmd.initiateCmd p lc d) = c ∧
      step c (Cmd.connectReceived p rc lc d) = c := by
  intro c p lc rc d hr
  refine ⟨initiate_no_relay c p lc d hr,
          onConnectReceived_no_relay c p rc lc d hr, ?_, ?_⟩
  · simp only [step]; rw [initiate_no_relay c p lc d hr]
  · simp only [step]; rw [onConnectReceived_no_relay c p rc lc d hr]

/-- Witness for `no_relayed_path_rejected`: peer 7 with no relayed
connection. -/
theorem no_relayed_path_rejected_witness :
    initiate (⟨[], 0, []⟩ : Coordinator) 7 [1] 50 =
      Except.error CoordError.NoRelayedPath :=
  (no_relayed_path_rejected ⟨[], 0, []⟩ 7 [1] [2] 50 rfl).1
